import Mathlib

/-!
# Verification of the java-llama.cpp completion core

Shallow embedding of the completion task engine (`completion_manager.cpp`,
`completion_task.h`), the constraint pattern preprocessor
(`pattern_preprocessor.cpp`) and the batch validation logic
(`batch_manager.cpp`) of the java-llama.cpp JNI binding layer, together with
proofs of the specified properties.

Strings crossing the boundary are byte strings (`std::string`); we model them
as `List Nat`, one entry per byte. Tokens (`llama_token`, an `int32_t`) are
modelled as `Int`. External collaborators (tokenizer, sampler, decode,
vocabulary) are passed in as explicit function/oracle parameters.
-/

namespace JLlama

/-- Task lifecycle states, from `completion_task.h` (`enum TaskState`). -/
inductive TaskState where
  | pending
  | processingPrompt
  | generating
  | completed
  | cancelledState
  deriving DecidableEq, Repr

/-- The mutable per-request state of `class CompletionTask`
(`completion_task.h`). The task-specific sampler chain pointer is modelled by
the Boolean `hasTaskSampler` (its internal state lives in the native sampler,
an external collaborator). Byte strings are `List Nat`. -/
structure CompletionTask where
  id : Int
  prompt : List Nat
  grammar : List Nat
  hasTaskSampler : Bool
  state : TaskState
  prompt_tokens : List Int
  generated_tokens : List Int
  current_text : List Nat
  n_predict : Nat
  current_pos : Nat
  cancelled : Bool
  deriving DecidableEq, Repr

/-- The `de.kherud.llama.LlamaOutput` object constructed by
`receiveCompletion`: a byte fragment plus the final flag. The probability map
is always freshly empty in this code path and is omitted. -/
structure LlamaOutput where
  bytes : List Nat
  isFinal : Bool
  deriving DecidableEq, Repr

/-- One poll of `CompletionManager::receiveCompletion`
(`completion_manager.cpp:133-251`), for a task that was found in the
registry. External inputs of the poll are the vocabulary's end-of-generation
predicate `isEog`, the `llama_token_to_piece` text `pieceOf` (empty when
`piece_len <= 0`, in which case the source skips the append), the token
`sampled` produced by `llama_sampler_sample`, and the success `decodeOk` of
the one-token `llama_decode`. Returns the `LlamaOutput` (or `none` for
`nullptr`) and the task as left behind by the call. -/
def receiveCompletion (isEog : Int → Bool) (pieceOf : Int → List Nat)
    (sampled : Int) (decodeOk : Bool) (task : CompletionTask) :
    Option LlamaOutput × CompletionTask :=
  if task.cancelled then
    (none, task)
  else if task.n_predict ≤ task.generated_tokens.length then
    -- generation limit reached before sampling: empty final fragment
    (some ⟨[], true⟩, task)
  else if isEog sampled then
    -- end of generation: whole accumulated text, final, no decode
    (some ⟨task.current_text, true⟩, task)
  else
    -- append the token, its text piece, advance the position, decode
    let task1 : CompletionTask :=
      { task with
        generated_tokens := task.generated_tokens ++ [sampled]
        current_text := task.current_text ++ pieceOf sampled
        current_pos := task.current_pos + 1 }
    if decodeOk then
      (some ⟨pieceOf sampled, false⟩, task1)
    else
      (none, task1)

/-- A sequence of polls of one task: each list entry supplies that poll's
sampled token and one-token decode outcome. Returns the poll results in order
and the final task state. -/
def pollTrace (isEog : Int → Bool) (pieceOf : Int → List Nat) :
    List (Int × Bool) → CompletionTask → List (Option LlamaOutput) × CompletionTask
  | [], task => ([], task)
  | (s, d) :: os, task =>
    let r := receiveCompletion isEog pieceOf s d task
    let rest := pollTrace isEog pieceOf os r.2
    (r.1 :: rest.1, rest.2)

/-! ## Ad hoc JSON parameter parsing (`completion_manager.cpp:291-392`) -/

/-- Byte test for an ASCII decimal digit (the `"0123456789"` set of
`find_first_of`). -/
def isDigitB (c : Nat) : Bool := decide (48 ≤ c ∧ c ≤ 57)

/-- `std::string::find(needle, from)`: first index `≥ from` at which `needle`
occurs in the remaining bytes. The list argument is the haystack suffix
starting at index `from`. -/
def findSubFrom (needle : List Nat) : List Nat → Nat → Option Nat
  | [], i => if needle.isPrefixOf ([] : List Nat) then some i else none
  | a :: t, i =>
    if needle.isPrefixOf (a :: t) then some i else findSubFrom needle t (i + 1)

/-- `std::string::find_first_of`-style scan: first index `≥ i` (the list is
the haystack suffix starting at `i`) whose byte satisfies `p`. -/
def findIdxFrom (p : Nat → Bool) : List Nat → Nat → Option Nat
  | [], _ => none
  | c :: t, i => if p c then some i else findIdxFrom p t (i + 1)

/-- Decimal digit-run value, as `std::stoi` computes it on an all-digit
substring (overflow, which would throw and be converted by the enclosing
`JNI_TRY` into the failure sentinel, is not modelled: `Nat` is unbounded). -/
def natFromDigits (ds : List Nat) : Nat :=
  ds.foldl (fun acc d => acc * 10 + (d - 48)) 0

/-- The bytes of `"n_predict":` (quotes included). -/
def nPredictKey : List Nat := [34, 110, 95, 112, 114, 101, 100, 105, 99, 116, 34, 58]

/-- The bytes of `"prompt":`. -/
def promptKey : List Nat := [34, 112, 114, 111, 109, 112, 116, 34, 58]

/-- The bytes of `"grammar":`. -/
def grammarKey : List Nat := [34, 103, 114, 97, 109, 109, 97, 114, 34, 58]

/-- The bytes of the fallback prompt `Hello`. -/
def helloBytes : List Nat := [72, 101, 108, 108, 111]

/-- `CompletionManager::parseNPredict` (`completion_manager.cpp:292-309`):
locate `"n_predict":`, take the first digit run at or after it; the default 10
survives when the key, a digit, or a non-digit terminator after the run is
missing (the last is a quirk of the source: a digit run extending to the end
of the string leaves the default in place). When the digit run's value
exceeds `INT_MAX`, `std::stoi` throws `std::out_of_range`; the result is
`none`, which the caller's `JNI_TRY`/`JNI_CATCH_RET` turns into the `-1`
failure sentinel. -/
def parseNPredict (json : List Nat) : Option Nat :=
  match findSubFrom nPredictKey json 0 with
  | none => some 10
  | some pos =>
    match findIdxFrom isDigitB (json.drop pos) pos with
    | none => some 10
    | some start =>
      match findIdxFrom (fun c => !isDigitB c) (json.drop start) start with
      | none => some 10
      | some e =>
        let v := natFromDigits ((json.drop start).take (e - start))
        if v ≤ 2147483647 then some v else none

/-- The closing-quote scan of `parsePrompt`: first index `e ≥ start` with
`json[e] = '"'` and (`e = start` or `json[e-1] ≠ '\'`). The list argument is
the haystack suffix at index `e`; `isFirst` tracks `e = start`, `prev` the
byte at `e - 1`. -/
def promptQuoteScan : List Nat → Nat → Bool → Nat → Option Nat
  | [], _, _, _ => none
  | c :: t, e, isFirst, prev =>
    if c = 34 ∧ (isFirst ∨ prev ≠ 92) then some e
    else promptQuoteScan t (e + 1) false c

/-- `CompletionManager::parsePrompt` (`completion_manager.cpp:311-335`):
extract the quoted value after `"prompt":`; any failure (missing key, missing
opening quote, unterminated value) yields the empty string. The value is not
unescaped. -/
def parsePrompt (json : List Nat) : List Nat :=
  match findSubFrom promptKey json 0 with
  | none => []
  | some pos =>
    match findIdxFrom (fun c => c == 34) (json.drop (pos + 9)) (pos + 9) with
    | none => []
    | some q =>
      match promptQuoteScan (json.drop (q + 1)) (q + 1) true 0 with
      | none => []
      | some e => (json.drop (q + 1)).take (e - (q + 1))

/-- The closing-quote scan of `parseGrammar`: a quote closes the value when
preceded by an even number of consecutive backslashes (counted no further
back than `start`); `run` is the current backslash run length. -/
def grammarQuoteScan : List Nat → Nat → Nat → Option Nat
  | [], _, _ => none
  | c :: t, e, run =>
    if c = 34 ∧ run % 2 = 0 then some e
    else grammarQuoteScan t (e + 1) (if c = 92 then run + 1 else 0)

/-- `CompletionManager::unescapeString` (`completion_manager.cpp:374-392`):
resolve `\"` and `\\`; any other backslash is kept and the next byte is
processed on its own. -/
def unescapeString : List Nat → List Nat
  | [] => []
  | 92 :: 34 :: rest => 34 :: unescapeString rest
  | 92 :: 92 :: rest => 92 :: unescapeString rest
  | c :: rest => c :: unescapeString rest

/-- `CompletionManager::parseGrammar` (`completion_manager.cpp:337-372`):
extract the quoted value after `"grammar":` with backslash-run-aware closing
quote detection, then unescape it. -/
def parseGrammar (json : List Nat) : List Nat :=
  match findSubFrom grammarKey json 0 with
  | none => []
  | some pos =>
    match findIdxFrom (fun c => c == 34) (json.drop (pos + 10)) (pos + 10) with
    | none => []
    | some q =>
      match grammarQuoteScan (json.drop (q + 1)) (q + 1) 0 with
      | none => []
      | some e => unescapeString ((json.drop (q + 1)).take (e - (q + 1)))

/-! ## Pattern preprocessor (`pattern_preprocessor.cpp`)

The three passes each scan the byte string left to right for leftmost,
non-overlapping matches of a fixed `std::regex` (ECMAScript grammar) and
replace them, leaving every non-matching byte untouched; this is exactly the
`sregex_iterator` loop of the source. The scanners below are written with an
explicit fuel argument (`fuel = length` at the top entry) so that they are
structurally recursive and kernel-evaluable; fuel-irrelevance lemmas below
show the fuel never runs out. -/

namespace PatternPreprocessor

/-- A byte matching the regex class `[0-9a-fA-F]`. -/
def isHexDigitB (c : Nat) : Bool :=
  decide ((48 ≤ c ∧ c ≤ 57) ∨ (97 ≤ c ∧ c ≤ 102) ∨ (65 ≤ c ∧ c ≤ 70))

/-- Value of one hex digit byte, as `std::stoul(..., 16)` reads it. -/
def hexVal (c : Nat) : Nat :=
  if c ≤ 57 then c - 48 else if c ≤ 70 then c - 55 else c - 87

/-- `PatternPreprocessor::codepoint_to_utf8`
(`pattern_preprocessor.cpp:169-193`): the bitwise ops `0xC0 | ((cp >> 6) &
0x1F)` etc. of the source are written in `/`, `%`, `+` form (the or-ed bit
ranges are disjoint). Codepoints above `0x10FFFF` yield the empty string. -/
def codepoint_to_utf8 (cp : Nat) : List Nat :=
  if cp ≤ 0x7F then [cp]
  else if cp ≤ 0x7FF then
    [192 + (cp / 64) % 32, 128 + cp % 64]
  else if cp ≤ 0xFFFF then
    [224 + (cp / 4096) % 16, 128 + (cp / 64) % 64, 128 + cp % 64]
  else if cp ≤ 0x10FFFF then
    [240 + (cp / 262144) % 8, 128 + (cp / 4096) % 64, 128 + (cp / 64) % 64, 128 + cp % 64]
  else []

/-- Independent single-scalar UTF-8 decoder (standard byte-pattern reading),
used only to state that `codepoint_to_utf8` really is the UTF-8 encoding. -/
def utf8DecodeOne : List Nat → Option Nat
  | [b] => if b ≤ 0x7F then some b else none
  | [b1, b2] =>
    if 192 ≤ b1 ∧ b1 ≤ 223 ∧ 128 ≤ b2 ∧ b2 ≤ 191 then
      some ((b1 - 192) * 64 + (b2 - 128))
    else none
  | [b1, b2, b3] =>
    if 224 ≤ b1 ∧ b1 ≤ 239 ∧ 128 ≤ b2 ∧ b2 ≤ 191 ∧ 128 ≤ b3 ∧ b3 ≤ 191 then
      some ((b1 - 224) * 4096 + (b2 - 128) * 64 + (b3 - 128))
    else none
  | [b1, b2, b3, b4] =>
    if 240 ≤ b1 ∧ b1 ≤ 247 ∧ 128 ≤ b2 ∧ b2 ≤ 191 ∧ 128 ≤ b3 ∧ b3 ≤ 191
        ∧ 128 ≤ b4 ∧ b4 ≤ 191 then
      some ((b1 - 240) * 262144 + (b2 - 128) * 4096 + (b3 - 128) * 64 + (b4 - 128))
    else none
  | _ => none

/-- Match of the regex `\u([0-9a-fA-F]{4})` at the head of the string
(6 bytes: `\`, `u`, four hex digits), with its replacement per the callback of
`process_unicode_escapes` (`pattern_preprocessor.cpp:23-32`): U+2028 and
U+2029 are deleted, everything else becomes its UTF-8 bytes. -/
def uRepl : List Nat → Option (List Nat)
  | 92 :: 117 :: a :: b :: c :: d :: _ =>
    if isHexDigitB a && isHexDigitB b && isHexDigitB c && isHexDigitB d then
      let cp := ((hexVal a * 16 + hexVal b) * 16 + hexVal c) * 16 + hexVal d
      some (if cp = 0x2028 ∨ cp = 0x2029 then [] else codepoint_to_utf8 cp)
    else none
  | _ => none

/-- Fueled scanner for `process_unicode_escapes`: replace each leftmost match
(6 bytes consumed) and copy every other byte. -/
def processUGo : Nat → List Nat → List Nat
  | 0, l => l
  | _ + 1, [] => []
  | fuel + 1, x :: rest =>
    match uRepl (x :: rest) with
    | some rep => rep ++ processUGo fuel (rest.drop 5)
    | none => x :: processUGo fuel rest

/-- `PatternPreprocessor::process_unicode_escapes`
(`pattern_preprocessor.cpp:18-47`). -/
def process_unicode_escapes (l : List Nat) : List Nat := processUGo l.length l

/-- Match of the regex `\x([0-9a-fA-F]{2})` at the head of the string
(4 bytes), with its replacement per the callback of `process_hex_escapes`
(`pattern_preprocessor.cpp:54-63`): bytes 0x0B, 0x0C, 0x85 are deleted,
everything else becomes the literal byte. -/
def xRepl : List Nat → Option (List Nat)
  | 92 :: 120 :: a :: b :: _ =>
    if isHexDigitB a && isHexDigitB b then
      let v := hexVal a * 16 + hexVal b
      some (if v = 0x0B ∨ v = 0x0C ∨ v = 0x85 then [] else [v])
    else none
  | _ => none

/-- Fueled scanner for `process_hex_escapes` (4 bytes consumed per match). -/
def processXGo : Nat → List Nat → List Nat
  | 0, l => l
  | _ + 1, [] => []
  | fuel + 1, x :: rest =>
    match xRepl (x :: rest) with
    | some rep => rep ++ processXGo fuel (rest.drop 3)
    | none => x :: processXGo fuel rest

/-- `PatternPreprocessor::process_hex_escapes`
(`pattern_preprocessor.cpp:49-78`). -/
def process_hex_escapes (l : List Nat) : List Nat := processXGo l.length l

/-- Matching of the sub-regex `((?:[^\]\\]|\\.)*)?\]` against the bytes that
follow a `[^` head: consume body items (a byte other than `]` and `\`, or `\`
followed by a byte other than the ECMAScript line terminators LF and CR)
until the closing `]`. Item starts and the closing bracket are mutually
exclusive at every position, so the ECMAScript greedy/backtracking search has
exactly this deterministic result. Returns the body bytes and the bytes after
the closing `]`. -/
def matchClassBody : List Nat → Option (List Nat × List Nat)
  | [] => none
  | c :: rest =>
    if c = 93 then some ([], rest)
    else if c = 92 then
      match rest with
      | [] => none
      | d :: rest2 =>
        if d = 10 ∨ d = 13 then none
        else
          match matchClassBody rest2 with
          | some (b, a) => some (92 :: d :: b, a)
          | none => none
    else
      match matchClassBody rest with
      | some (b, a) => some (c :: b, a)
      | none => none

/-- The characters an escape `\c` inside a negated class denotes, per the
`switch` of `process_negated_char_classes` (`pattern_preprocessor.cpp:100-129`):
`\r \n \t \\ \]` their control/literal byte, `\d` the digits, `\s` the five
whitespace bytes, `\w` word characters, and any other escaped byte itself. -/
def escClassChars (next : Nat) : List Nat :=
  if next = 114 then [13]
  else if next = 110 then [10]
  else if next = 116 then [9]
  else if next = 92 then [92]
  else if next = 93 then [93]
  else if next = 100 then List.range' 48 10
  else if next = 115 then [32, 9, 10, 13, 12]
  else if next = 119 then List.range' 97 26 ++ List.range' 65 26 ++ List.range' 48 10 ++ [95]
  else [next]

/-- The bytes a range `c-e` inserts. The source loop
`for (unsigned char cc = start; cc <= end; ++cc)` inserts `c, c+1, ..., e`
(nothing when `c > e`) and terminates whenever the range's end byte satisfies
`e < 255`; when `e = 255` the condition `cc <= end` holds for every
`unsigned char`, the counter wraps and the loop never returns. `none` models
that divergence; `some` the terminating insertions. (Body bytes come from a
byte string, so `e` is at most 255.) -/
def rangeChars (c e : Nat) : Option (List Nat) :=
  if e = 255 then none else some (List.range' c (e + 1 - c))

/-- The excluded-character parse of a negated class body
(`pattern_preprocessor.cpp:97-141`). The source collects a `std::set`; only
membership in the result is ever used, so a `List Nat` with possible
duplicates is an equivalent model. `none` models the loop never returning,
which happens exactly when a range item ends at byte 255 (the items before it
have been inserted, but the set is never consumed). -/
def parseNegatedBody : List Nat → Option (List Nat)
  | [] => some []
  | 92 :: rest =>
    match rest with
    | [] => some [92]
    | next :: rest2 => (parseNegatedBody rest2).map (fun ex => escClassChars next ++ ex)
  | c :: 45 :: e :: rest2 =>
    match rangeChars c e with
    | none => none
    | some rs => (parseNegatedBody rest2).map (fun ex => rs ++ ex)
  | c :: rest => (parseNegatedBody rest).map (fun ex => c :: ex)

/-- Lowercase hex digit byte for a value `< 16`, as `std::hex` prints it. -/
def hexDigitChar (d : Nat) : Nat := if d < 10 then 48 + d else 87 + d

/-- The bytes emitted for one kept character of the positive class
(`pattern_preprocessor.cpp:147-157`): re-escape `\ ] - ^`, hex-escape
control characters (`< 0x20` or `0x7F`), emit everything else raw. -/
def emitChar (c : Nat) : List Nat :=
  if c = 92 ∨ c = 93 ∨ c = 45 ∨ c = 94 then [92, c]
  else if c < 32 ∨ c = 127 then [92, 120, hexDigitChar (c / 16), hexDigitChar (c % 16)]
  else [c]

/-- Concatenation of the per-character emissions. -/
def emitAll : List Nat → List Nat
  | [] => []
  | c :: t => emitChar c ++ emitAll t

/-- The bytes between the brackets of the rewritten positive class: the loop
`for (unsigned char c = 0; c < 255; ++c)` keeps every byte `0..254` not in the
excluded set. -/
def positiveBody (ex : List Nat) : List Nat :=
  emitAll ((List.range 255).filter (fun c => decide (c ∉ ex)))

/-- The full rewritten class `[...]` (`pattern_preprocessor.cpp:144-160`). -/
def buildPositiveClass (ex : List Nat) : List Nat :=
  91 :: positiveBody ex ++ [93]

/-- Match of the full negated-class regex `\[\^((?:[^\]\\]|\\.)*)?\]` at the
head of the string: a `[^` head followed by a matching class body whose
excluded-set loop terminates. Returns the rewritten positive class and the
bytes after the match. A matched body whose excluded-set loop diverges
(`parseNegatedBody body = none`) yields `none` here: on such an input the
source hangs inside this match and the scan below it never resumes, so no
theorem in this file describes the scanner's value there (`hasNegatedClass`
deliberately still counts such classes as matches, keeping them out of the
identity claims' domain). -/
def ncRepl : List Nat → Option (List Nat × List Nat)
  | 91 :: 94 :: rest =>
    (match matchClassBody rest with
     | some (body, after) =>
       (match parseNegatedBody body with
        | some ex => some (buildPositiveClass ex, after)
        | none => none)
     | none => none)
  | _ => none

/-- Fueled scanner for `process_negated_char_classes`: at each `[^` head try
to match the class body; on a match emit the rewritten positive class and
continue after the closing `]`, otherwise copy one byte and continue. On a
matched class whose excluded-set loop diverges (`ncRepl` is `none` although
the regex matched) the source hangs and never produces output; the total
scanner copies on, and every theorem below either requires a terminating body
(`parseNegatedBody _ = some _`) or excludes matches altogether
(`hasNegatedClass _ = false`), so no statement rests on the scanner's value
at a hang. -/
def processNCGo : Nat → List Nat → List Nat
  | 0, l => l
  | _ + 1, [] => []
  | fuel + 1, x :: rest =>
    match ncRepl (x :: rest) with
    | some (rep, after) => rep ++ processNCGo fuel after
    | none => x :: processNCGo fuel rest

/-- `PatternPreprocessor::process_negated_char_classes`
(`pattern_preprocessor.cpp:80-167`). -/
def process_negated_char_classes (l : List Nat) : List Nat :=
  processNCGo l.length l

/-- `PatternPreprocessor::preprocess` (`pattern_preprocessor.cpp:7-16`):
Unicode escapes, then hex escapes, then negated classes. -/
def preprocess (pattern : List Nat) : List Nat :=
  process_negated_char_classes (process_hex_escapes (process_unicode_escapes pattern))

/-- Whether the regex `\u([0-9a-fA-F]{4})` matches anywhere in the string. -/
def hasUnicodeEscape : List Nat → Bool
  | [] => false
  | x :: rest => (uRepl (x :: rest)).isSome || hasUnicodeEscape rest

/-- Whether the regex `\x([0-9a-fA-F]{2})` matches anywhere in the string. -/
def hasHexEscape : List Nat → Bool
  | [] => false
  | x :: rest => (xRepl (x :: rest)).isSome || hasHexEscape rest

/-- Whether the negated-class regex matches at the head of the string — any
matched `[^...]`, whether or not its excluded-set loop would terminate. -/
def ncMatches : List Nat → Bool
  | 91 :: 94 :: rest => (matchClassBody rest).isSome
  | _ => false

/-- Whether a well-formed negated class `[^...]` occurs anywhere (again
counting classes on which the rewrite loop would hang, so identity results
guarded by this predicate never rely on the scanner's value at a hang). -/
def hasNegatedClass : List Nat → Bool
  | [] => false
  | x :: rest => ncMatches (x :: rest) || hasNegatedClass rest

/-- Reparse of an emitted positive-class body back into the list of member
bytes it denotes: `\xHH` is a hex-escaped member, any other `\c` an escaped
literal member, any other byte a raw member. Used to state that the emitted
class denotes exactly the complement set. -/
def classItemsBack (l : List Nat) : Option (List Nat) :=
  match l with
  | [] => some []
  | 92 :: 120 :: a :: b :: rest =>
    if isHexDigitB a && isHexDigitB b then
      (classItemsBack rest).map (fun ms => (hexVal a * 16 + hexVal b) :: ms)
    else
      (classItemsBack (a :: b :: rest)).map (fun ms => 120 :: ms)
  | 92 :: d :: rest => (classItemsBack rest).map (fun ms => d :: ms)
  | [92] => none
  | c :: rest => (classItemsBack rest).map (fun ms => c :: ms)
termination_by l.length
decreasing_by all_goals simp_arith

end PatternPreprocessor

/-- The task as stored by a successful submit
(`completion_manager.cpp:43-87,111`): state `GENERATING`, position at the end
of the prompt, no generated tokens yet. -/
def mkSubmittedTask (nextId : Int) (prompt grammar : List Nat)
    (hasSampler : Bool) (tks : List Int) (n_predict : Nat) : CompletionTask :=
  { id := nextId
    prompt := prompt
    grammar := grammar
    hasTaskSampler := hasSampler
    state := TaskState.generating
    prompt_tokens := tks
    generated_tokens := []
    current_text := []
    n_predict := n_predict
    current_pos := tks.length
    cancelled := false }

/-- `CompletionManager::requestCompletion` (`completion_manager.cpp:22-131`),
for a valid server handle. External collaborators: `tok` is the
tokenize-with-retry of lines 50-59 (`none` when `llama_tokenize` stays
negative after the resize retry, in which case submit fails), `decodePromptOk`
the success of the whole-prompt `llama_decode`, and `compileOk` the success of
`llama_sampler_init_grammar` on the preprocessed pattern (`false` = null
sampler handle). Returns the `jint` result (task id, or the failure sentinel
`-1`) together with the entry inserted into `server->active_tasks`
(`none` = the registry is left unchanged). The source parses `n_predict`
first (line 34), so an `std::stoi` overflow throw there aborts the submission
via `JNI_CATCH_RET` with `-1` before anything else happens — modelled by the
leading `parseNPredict` match. -/
def requestCompletion (tok : List Nat → Option (List Int)) (decodePromptOk : Bool)
    (compileOk : List Nat → Bool) (nextId : Int) (params : List Nat) :
    Int × Option CompletionTask :=
  match parseNPredict params with
  | none => (-1, none)
  | some n_predict =>
  let prompt0 := parsePrompt params
  let prompt := if prompt0 = [] then helloBytes else prompt0
  let grammar := parseGrammar params
  match tok prompt with
  | none => (-1, none)
  | some tks =>
    if decodePromptOk then
      if grammar = [] then
        (nextId, some (mkSubmittedTask nextId prompt grammar false tks n_predict))
      else if compileOk (PatternPreprocessor.preprocess grammar) then
        (nextId, some (mkSubmittedTask nextId prompt grammar true tks n_predict))
      else
        (-1, none)
    else
      (-1, none)

/-! ## Batch validation (`batch_manager.cpp`) -/

/-- A `llama_batch` as `BatchManager::decodeTokens` sees it: each native
array is `none` when the pointer is null; `seq_id` is an array of per-token
pointers, each itself possibly null. -/
structure LlamaBatch where
  n_tokens : Int
  token : Option (List Int)
  pos : Option (List Int)
  n_seq_id : Option (List Int)
  seq_id : Option (List (Option (List Int)))
  logits : Option (List Int)
  deriving Repr

/-- One iteration of the defensive seq-id re-initialization loop
(`batch_manager.cpp:164-182`) at token index `i`: fix `n_seq_id[i] <= 0` to 1,
fix a negative `seq_id[i][0]` to 0, and fail (`none`, the `-6` path) when
`seq_id` is non-null but `seq_id[i]` is null. -/
def fixSeqStep (b : LlamaBatch) (i : Nat) : Option LlamaBatch :=
  let b1 :=
    { b with
      n_seq_id :=
        match b.n_seq_id with
        | some ns => if ns.getD i 1 ≤ 0 then some (ns.set i 1) else some ns
        | none => none }
  match b1.seq_id with
  | none => some b1
  | some sids =>
    match sids.getD i none with
    | none => none
    | some sv =>
      match b1.n_seq_id with
      | none => some b1
      | some ns =>
        if 0 < ns.getD i 0 then
          if sv.getD 0 0 < 0 then
            some { b1 with seq_id := some (sids.set i (some (sv.set 0 0))) }
          else some b1
        else some b1

/-- The whole re-initialization loop over indices `0 .. n_tokens - 1`. -/
def fixSeqAll (b : LlamaBatch) : Option LlamaBatch :=
  (List.range b.n_tokens.toNat).foldlM fixSeqStep b

/-- `BatchManager::decodeTokens` (`batch_manager.cpp:139-185`): null context
or unknown batch handle give `-1`; then the validation chain gives `-2`
(non-positive token count), `-3` (null token array), `-4` (null position
array), `-5` (null logit flags), `-6` (unallocated seq-id slot); otherwise the
`llama_decode` result `decodeRes` is returned. -/
def decodeTokens (ctxOk : Bool) (batch : Option LlamaBatch) (decodeRes : Int) : Int :=
  match batch, ctxOk with
  | none, _ => -1
  | _, false => -1
  | some b, true =>
    if b.n_tokens ≤ 0 then -2
    else if b.token = none then -3
    else if b.pos = none then -4
    else if b.logits = none then -5
    else
      match fixSeqAll b with
      | none => -6
      | some _ => decodeRes

/-- Whether a poll result is a generated-token fragment: a non-final output. -/
def isGenFragment : Option LlamaOutput → Bool
  | some o => !o.isFinal
  | none => false

/-- Number of generated-token fragments among a list of poll results. -/
def countGenFragments (rs : List (Option LlamaOutput)) : Nat :=
  rs.countP (fun r => isGenFragment r)

/-- Concatenation of the byte fragments of the non-final poll results. -/
def concatGenFragments : List (Option LlamaOutput) → List Nat
  | [] => []
  | some o :: rs => (if o.isFinal then [] else o.bytes) ++ concatGenFragments rs
  | none :: rs => concatGenFragments rs

/-- The task left behind by the generating branch of a poll: the sampled
token appended, its text piece appended, the position advanced
(`completion_manager.cpp:203-224`). -/
def advanceTask (pieceOf : Int → List Nat) (sampled : Int) (t : CompletionTask) :
    CompletionTask :=
  { t with
    generated_tokens := t.generated_tokens ++ [sampled]
    current_text := t.current_text ++ pieceOf sampled
    current_pos := t.current_pos + 1 }

/-- A live mid-generation task at its generation limit (`n_predict` tokens
already emitted), used to instantiate universally quantified theorems. -/
def sampleTask : CompletionTask :=
  { id := 1, prompt := [72, 105], grammar := [], hasTaskSampler := false,
    state := TaskState.generating, prompt_tokens := [3, 4],
    generated_tokens := [5, 6], current_text := [97, 98],
    n_predict := 2, current_pos := 4, cancelled := false }

/-- A live task fresh after prompt processing (nothing generated yet), used
to instantiate universally quantified theorems. -/
def sampleTask2 : CompletionTask :=
  { id := 2, prompt := [72], grammar := [], hasTaskSampler := false,
    state := TaskState.generating, prompt_tokens := [3, 4],
    generated_tokens := [], current_text := [],
    n_predict := 3, current_pos := 2, cancelled := false }

/-! ## Lemmas about the poll step -/

/-- Exhaustive characterization of one poll: cancelled, generation limit,
end-of-generation, or the one-token generation step (successful or with a
failing decode). -/
theorem receive_cases (isEog : Int → Bool) (pieceOf : Int → List Nat)
    (s : Int) (d : Bool) (t : CompletionTask) :
    (t.cancelled = true ∧ receiveCompletion isEog pieceOf s d t = (none, t))
    ∨ (t.cancelled = false ∧ t.n_predict ≤ t.generated_tokens.length ∧
        receiveCompletion isEog pieceOf s d t = (some ⟨[], true⟩, t))
    ∨ (t.cancelled = false ∧ t.generated_tokens.length < t.n_predict ∧
        isEog s = true ∧
        receiveCompletion isEog pieceOf s d t = (some ⟨t.current_text, true⟩, t))
    ∨ (t.cancelled = false ∧ t.generated_tokens.length < t.n_predict ∧
        isEog s = false ∧
        receiveCompletion isEog pieceOf s d t =
          ((if d then some ⟨pieceOf s, false⟩ else none),
            advanceTask pieceOf s t)) := by
  unfold receiveCompletion advanceTask
  by_cases hc : t.cancelled
  · exact Or.inl ⟨hc, by simp [hc]⟩
  · by_cases hl : t.n_predict ≤ t.generated_tokens.length
    · exact Or.inr (Or.inl ⟨by simp [hc], hl, by simp [hc, hl]⟩)
    · by_cases he : isEog s
      · exact Or.inr (Or.inr (Or.inl ⟨by simp [hc], by omega, he, by simp [hc, hl, he]⟩))
      · refine Or.inr (Or.inr (Or.inr ⟨by simp [hc], by omega, by simp [he], ?_⟩))
        cases d <;> simp [hc, hl, he]

/-- A poll never brings the generated-token count above `n_predict`. -/
theorem receive_genlen_le (isEog : Int → Bool) (pieceOf : Int → List Nat)
    (s : Int) (d : Bool) (t : CompletionTask)
    (h : t.generated_tokens.length ≤ t.n_predict) :
    ((receiveCompletion isEog pieceOf s d t).2).generated_tokens.length ≤ t.n_predict := by
  rcases receive_cases isEog pieceOf s d t with ⟨_, he⟩ | ⟨_, _, he⟩ | ⟨_, _, _, he⟩
    | ⟨_, hl, _, he⟩ <;> rw [he] <;> simp [advanceTask] <;> omega

/-- A poll leaves `n_predict` unchanged. -/
theorem receive_n_predict (isEog : Int → Bool) (pieceOf : Int → List Nat)
    (s : Int) (d : Bool) (t : CompletionTask) :
    ((receiveCompletion isEog pieceOf s d t).2).n_predict = t.n_predict := by
  rcases receive_cases isEog pieceOf s d t with ⟨_, he⟩ | ⟨_, _, he⟩ | ⟨_, _, _, he⟩
    | ⟨_, _, _, he⟩ <;> rw [he] <;> simp [advanceTask]

theorem countGenFragments_cons (r : Option LlamaOutput) (rs : List (Option LlamaOutput)) :
    countGenFragments (r :: rs) =
      (if isGenFragment r then 1 else 0) + countGenFragments rs := by
  simp [countGenFragments, List.countP_cons]
  cases h : isGenFragment r <;> simp [h] <;> omega

/-- Generated-token fragments produced by a trace of polls are bounded by the
remaining token budget. -/
theorem pollTrace_count_le (isEog : Int → Bool) (pieceOf : Int → List Nat) :
    ∀ (os : List (Int × Bool)) (t : CompletionTask),
      t.generated_tokens.length ≤ t.n_predict →
      countGenFragments (pollTrace isEog pieceOf os t).1 + t.generated_tokens.length ≤
        t.n_predict
  | [], t, h => by simpa [pollTrace, countGenFragments]
  | (s, d) :: os, t, h => by
    rcases receive_cases isEog pieceOf s d t with ⟨_, he⟩ | ⟨_, hl, he⟩ | ⟨_, hl, _, he⟩
      | ⟨_, hl, _, he⟩
    · have ih := pollTrace_count_le isEog pieceOf os t h
      simp only [pollTrace, he, countGenFragments_cons]
      simp [isGenFragment]
      omega
    · have ih := pollTrace_count_le isEog pieceOf os t h
      simp only [pollTrace, he, countGenFragments_cons]
      simp [isGenFragment]
      omega
    · have ih := pollTrace_count_le isEog pieceOf os t h
      simp only [pollTrace, he, countGenFragments_cons]
      simp [isGenFragment]
      omega
    · have hlen : (advanceTask pieceOf s t).generated_tokens.length ≤
          (advanceTask pieceOf s t).n_predict := by
        simp [advanceTask]; omega
      have ih := pollTrace_count_le isEog pieceOf os (advanceTask pieceOf s t) hlen
      have hnp : (advanceTask pieceOf s t).n_predict = t.n_predict := by
        simp [advanceTask]
      have hgl : (advanceTask pieceOf s t).generated_tokens.length =
          t.generated_tokens.length + 1 := by
        simp [advanceTask]
      rw [hnp, hgl] at ih
      cases d
      · simp only [Bool.false_eq_true, if_false] at he
        simp only [pollTrace, he, countGenFragments_cons]
        simp [isGenFragment]
        omega
      · simp only [if_true] at he
        simp only [pollTrace, he, countGenFragments_cons]
        simp [isGenFragment]
        omega

/-- The generated-token count stays at or below `n_predict` over a trace. -/
theorem pollTrace_genlen_le (isEog : Int → Bool) (pieceOf : Int → List Nat) :
    ∀ (os : List (Int × Bool)) (t : CompletionTask),
      t.generated_tokens.length ≤ t.n_predict →
      ((pollTrace isEog pieceOf os t).2).generated_tokens.length ≤ t.n_predict
  | [], t, h => by simpa [pollTrace]
  | (s, d) :: os, t, h => by
    simp only [pollTrace]
    have h1 := receive_genlen_le isEog pieceOf s d t h
    have h2 := receive_n_predict isEog pieceOf s d t
    have := pollTrace_genlen_le isEog pieceOf os
      ((receiveCompletion isEog pieceOf s d t).2) (by omega)
    omega

/-- Over a trace whose one-token decodes all succeed, the accumulated text
grows by exactly the concatenation of the returned non-final fragments. -/
theorem pollTrace_text (isEog : Int → Bool) (pieceOf : Int → List Nat) :
    ∀ (os : List (Int × Bool)) (t : CompletionTask),
      (∀ o ∈ os, o.2 = true) →
      ((pollTrace isEog pieceOf os t).2).current_text =
        t.current_text ++ concatGenFragments (pollTrace isEog pieceOf os t).1
  | [], t, _ => by simp [pollTrace, concatGenFragments]
  | (s, d) :: os, t, hok => by
    have hd : d = true := hok (s, d) (by simp)
    have hrest : ∀ o ∈ os, o.2 = true := fun o ho => hok o (by simp [ho])
    subst hd
    simp only [pollTrace]
    rcases receive_cases isEog pieceOf s true t with ⟨_, he⟩ | ⟨_, hl, he⟩ | ⟨_, hl, _, he⟩
      | ⟨_, hl, _, he⟩
    · have ih := pollTrace_text isEog pieceOf os t hrest
      simp [he, concatGenFragments, ih]
    · have ih := pollTrace_text isEog pieceOf os t hrest
      simp [he, concatGenFragments, ih]
    · have ih := pollTrace_text isEog pieceOf os t hrest
      simp [he, concatGenFragments, ih]
    · have ih := pollTrace_text isEog pieceOf os (advanceTask pieceOf s t) hrest
      simp only [if_true] at he
      simp only [pollTrace, he, concatGenFragments, ih]
      simp only [advanceTask]
      simp [List.append_assoc]

/-! ## Claims about the completion engine -/

/-- **C1.** The generated-token count never exceeds `n_predict`: one poll and
any trace of polls preserve `generated_tokens.length ≤ n_predict`; a poll of
a live task that has already emitted `n_predict` tokens returns the empty
final fragment and leaves the task untouched, for every value the sampler
could have produced (so no sampled token is consumed); and a trace of polls
started within budget yields at most `n_predict - generated` further
generated-token fragments. -/
theorem claim_C1 :
    (∀ (isEog : Int → Bool) (pieceOf : Int → List Nat) (s : Int) (d : Bool)
        (t : CompletionTask),
        t.generated_tokens.length ≤ t.n_predict →
        ((receiveCompletion isEog pieceOf s d t).2).generated_tokens.length ≤ t.n_predict)
    ∧ (∀ (isEog : Int → Bool) (pieceOf : Int → List Nat) (os : List (Int × Bool))
        (t : CompletionTask),
        t.generated_tokens.length ≤ t.n_predict →
        ((pollTrace isEog pieceOf os t).2).generated_tokens.length ≤ t.n_predict)
    ∧ (∀ (isEog : Int → Bool) (pieceOf : Int → List Nat) (s : Int) (d : Bool)
        (t : CompletionTask),
        t.cancelled = false →
        t.n_predict ≤ t.generated_tokens.length →
        receiveCompletion isEog pieceOf s d t = (some ⟨[], true⟩, t))
    ∧ (∀ (isEog : Int → Bool) (pieceOf : Int → List Nat) (os : List (Int × Bool))
        (t : CompletionTask),
        t.generated_tokens.length ≤ t.n_predict →
        countGenFragments (pollTrace isEog pieceOf os t).1 + t.generated_tokens.length ≤
          t.n_predict) := by
  refine ⟨receive_genlen_le, pollTrace_genlen_le, ?_, pollTrace_count_le⟩
  intro isEog pieceOf s d t hc hl
  rcases receive_cases isEog pieceOf s d t with ⟨h1, _⟩ | ⟨_, _, heq⟩ | ⟨_, h2, _, _⟩
    | ⟨_, h2, _, _⟩
  · rw [hc] at h1; simp at h1
  · exact heq
  · omega
  · omega

/-- Witness for C1, at a task standing exactly at its generation limit. -/
theorem claim_C1_witness :
    receiveCompletion (fun _ => true) (fun _ => [65]) 7 true sampleTask =
      (some ⟨[], true⟩, sampleTask)
    ∧ countGenFragments
          (pollTrace (fun _ => true) (fun _ => [65]) [(7, true)] sampleTask).1
        + sampleTask.generated_tokens.length ≤ sampleTask.n_predict :=
  ⟨claim_C1.2.2.1 (fun _ => true) (fun _ => [65]) 7 true sampleTask rfl (by decide),
   claim_C1.2.2.2 (fun _ => true) (fun _ => [65]) [(7, true)] sampleTask (by decide)⟩

/-- **C2.** A poll of a live task below its limit that samples an
end-of-generation token returns the whole accumulated text with
`isFinal = true`, leaves the task unchanged, and its result does not depend
on the decode outcome (no further decode happens); after any trace of polls
from a fresh task whose decodes all succeeded, that accumulated text is
exactly the concatenation of the non-final fragments the previous polls
returned. -/
theorem claim_C2 :
    (∀ (isEog : Int → Bool) (pieceOf : Int → List Nat) (s : Int) (d : Bool)
        (t : CompletionTask),
        t.cancelled = false →
        t.generated_tokens.length < t.n_predict →
        isEog s = true →
        receiveCompletion isEog pieceOf s d t = (some ⟨t.current_text, true⟩, t))
    ∧ (∀ (isEog : Int → Bool) (pieceOf : Int → List Nat) (os : List (Int × Bool))
        (s : Int) (d : Bool) (t : CompletionTask),
        t.current_text = [] →
        (∀ o ∈ os, o.2 = true) →
        ((pollTrace isEog pieceOf os t).2).cancelled = false →
        ((pollTrace isEog pieceOf os t).2).generated_tokens.length <
          ((pollTrace isEog pieceOf os t).2).n_predict →
        isEog s = true →
        receiveCompletion isEog pieceOf s d (pollTrace isEog pieceOf os t).2 =
          (some ⟨concatGenFragments (pollTrace isEog pieceOf os t).1, true⟩,
            (pollTrace isEog pieceOf os t).2)) := by
  have main : ∀ (isEog : Int → Bool) (pieceOf : Int → List Nat) (s : Int) (d : Bool)
      (t : CompletionTask),
      t.cancelled = false →
      t.generated_tokens.length < t.n_predict →
      isEog s = true →
      receiveCompletion isEog pieceOf s d t = (some ⟨t.current_text, true⟩, t) := by
    intro isEog pieceOf s d t hc hl he
    rcases receive_cases isEog pieceOf s d t with ⟨h1, _⟩ | ⟨_, h2, _⟩ | ⟨_, _, _, heq⟩
      | ⟨_, _, h3, _⟩
    · rw [hc] at h1; simp at h1
    · omega
    · exact heq
    · rw [he] at h3; simp at h3
  refine ⟨main, ?_⟩
  intro isEog pieceOf os s d t htext hok hc hl he
  have h2 := pollTrace_text isEog pieceOf os t hok
  rw [htext] at h2
  have h3 := main isEog pieceOf s d (pollTrace isEog pieceOf os t).2 hc hl he
  rw [h3, h2]
  simp

/-- Witness for C2: one successful generating poll, then an EOG poll. -/
theorem claim_C2_witness :
    receiveCompletion (fun tk => decide (tk = 9)) (fun _ => [65]) 9 true
        (pollTrace (fun tk => decide (tk = 9)) (fun _ => [65]) [(7, true)] sampleTask2).2 =
      (some ⟨concatGenFragments
          (pollTrace (fun tk => decide (tk = 9)) (fun _ => [65]) [(7, true)] sampleTask2).1,
        true⟩,
        (pollTrace (fun tk => decide (tk = 9)) (fun _ => [65]) [(7, true)] sampleTask2).2) :=
  claim_C2.2 (fun tk => decide (tk = 9)) (fun _ => [65]) [(7, true)] 9 true sampleTask2
    rfl (by decide) (by decide) (by decide) (by decide)

/-- **C3.** A successful generating poll (live task, below limit, non-EOG
token, decode succeeds) returns exactly the newly produced text piece as a
non-final fragment and appends that same piece to the accumulated text; over
any trace of polls from a fresh task whose decodes all succeed, the
concatenation of the returned non-final fragments equals the task's final
accumulated text. -/
theorem claim_C3 :
    (∀ (isEog : Int → Bool) (pieceOf : Int → List Nat) (s : Int) (t : CompletionTask),
        t.cancelled = false →
        t.generated_tokens.length < t.n_predict →
        isEog s = false →
        receiveCompletion isEog pieceOf s true t =
          (some ⟨pieceOf s, false⟩, advanceTask pieceOf s t)
        ∧ (advanceTask pieceOf s t).current_text = t.current_text ++ pieceOf s)
    ∧ (∀ (isEog : Int → Bool) (pieceOf : Int → List Nat) (os : List (Int × Bool))
        (t : CompletionTask),
        t.current_text = [] →
        (∀ o ∈ os, o.2 = true) →
        concatGenFragments (pollTrace isEog pieceOf os t).1 =
          ((pollTrace isEog pieceOf os t).2).current_text) := by
  constructor
  · intro isEog pieceOf s t hc hl he
    rcases receive_cases isEog pieceOf s true t with ⟨h1, _⟩ | ⟨_, h2, _⟩ | ⟨_, _, h3, _⟩
      | ⟨_, _, _, heq⟩
    · rw [hc] at h1; simp at h1
    · omega
    · rw [he] at h3; simp at h3
    · simp only [if_true] at heq
      exact ⟨heq, by simp [advanceTask]⟩
  · intro isEog pieceOf os t htext hok
    have h2 := pollTrace_text isEog pieceOf os t hok
    rw [htext] at h2
    rw [h2]
    simp

/-- Witness for C3: a generating poll on a fresh task, and the
fragment-concatenation identity over a two-poll trace. -/
theorem claim_C3_witness :
    (receiveCompletion (fun _ => false) (fun _ => [66]) 7 true sampleTask2 =
        (some ⟨[66], false⟩, advanceTask (fun _ => [66]) 7 sampleTask2)
      ∧ (advanceTask (fun _ => [66]) 7 sampleTask2).current_text =
          sampleTask2.current_text ++ [66])
    ∧ concatGenFragments
        (pollTrace (fun _ => false) (fun _ => [66]) [(7, true), (8, true)] sampleTask2).1 =
      ((pollTrace (fun _ => false) (fun _ => [66]) [(7, true), (8, true)] sampleTask2).2).current_text :=
  ⟨claim_C3.1 (fun _ => false) (fun _ => [66]) 7 sampleTask2 rfl (by decide) rfl,
   claim_C3.2 (fun _ => false) (fun _ => [66]) [(7, true), (8, true)] sampleTask2 rfl
     (by decide)⟩

/-- **C8.** Position bookkeeping: a successful submit stores the task with
`current_pos = prompt_tokens.length` and no generated tokens; every poll
preserves `current_pos = prompt_tokens.length + generated_tokens.length`;
the generation-limit poll and the EOG poll leave the task unchanged; and a
generating poll whose one-token decode fails still keeps both the appended
token and the position increment. -/
theorem claim_C8 :
    (∀ (tok : List Nat → Option (List Int)) (dOk : Bool) (cOk : List Nat → Bool)
        (nid : Int) (params : List Nat) (r : Int) (t : CompletionTask),
        requestCompletion tok dOk cOk nid params = (r, some t) →
        t.current_pos = t.prompt_tokens.length ∧ t.generated_tokens = [])
    ∧ (∀ (isEog : Int → Bool) (pieceOf : Int → List Nat) (s : Int) (d : Bool)
        (t : CompletionTask),
        t.current_pos = t.prompt_tokens.length + t.generated_tokens.length →
        ((receiveCompletion isEog pieceOf s d t).2).current_pos =
          ((receiveCompletion isEog pieceOf s d t).2).prompt_tokens.length +
            ((receiveCompletion isEog pieceOf s d t).2).generated_tokens.length)
    ∧ (∀ (isEog : Int → Bool) (pieceOf : Int → List Nat) (s : Int) (d : Bool)
        (t : CompletionTask),
        t.cancelled = false → t.n_predict ≤ t.generated_tokens.length →
        (receiveCompletion isEog pieceOf s d t).2 = t)
    ∧ (∀ (isEog : Int → Bool) (pieceOf : Int → List Nat) (s : Int) (d : Bool)
        (t : CompletionTask),
        t.cancelled = false → t.generated_tokens.length < t.n_predict →
        isEog s = true → (receiveCompletion isEog pieceOf s d t).2 = t)
    ∧ (∀ (isEog : Int → Bool) (pieceOf : Int → List Nat) (s : Int) (t : CompletionTask),
        t.cancelled = false → t.generated_tokens.length < t.n_predict →
        isEog s = false →
        receiveCompletion isEog pieceOf s false t = (none, advanceTask pieceOf s t)) := by
  refine ⟨?_, ?_, ?_, ?_, ?_⟩
  · intro tok dOk cOk nid params r t h
    simp only [requestCompletion] at h
    split at h
    · simp at h
    · split at h
      · simp at h
      · split at h
        · split at h
          · simp only [Prod.mk.injEq, Option.some.injEq] at h
            rw [← h.2]
            simp [mkSubmittedTask]
          · split at h
            · simp only [Prod.mk.injEq, Option.some.injEq] at h
              rw [← h.2]
              simp [mkSubmittedTask]
            · simp at h
        · simp at h
  · intro isEog pieceOf s d t hpos
    rcases receive_cases isEog pieceOf s d t with ⟨_, heq⟩ | ⟨_, _, heq⟩ | ⟨_, _, _, heq⟩
      | ⟨_, _, _, heq⟩
    · rw [heq]; exact hpos
    · rw [heq]; exact hpos
    · rw [heq]; exact hpos
    · rw [heq]
      cases d <;> simp [advanceTask] <;> omega
  · intro isEog pieceOf s d t hc hl
    rcases receive_cases isEog pieceOf s d t with ⟨h1, _⟩ | ⟨_, _, heq⟩ | ⟨_, h2, _, _⟩
      | ⟨_, h2, _, _⟩
    · rw [hc] at h1; simp at h1
    · rw [heq]
    · omega
    · omega
  · intro isEog pieceOf s d t hc hl he
    rcases receive_cases isEog pieceOf s d t with ⟨h1, _⟩ | ⟨_, h2, _⟩ | ⟨_, _, _, heq⟩
      | ⟨_, _, h3, _⟩
    · rw [hc] at h1; simp at h1
    · omega
    · rw [heq]
    · rw [he] at h3; simp at h3
  · intro isEog pieceOf s t hc hl he
    rcases receive_cases isEog pieceOf s false t with ⟨h1, _⟩ | ⟨_, h2, _⟩ | ⟨_, _, h3, _⟩
      | ⟨_, _, _, heq⟩
    · rw [hc] at h1; simp at h1
    · omega
    · rw [he] at h3; simp at h3
    · simpa using heq

/-- Witness for C8: a concrete successful submit and a decode-failing poll. -/
theorem claim_C8_witness :
    ((mkSubmittedTask 5 helloBytes [] false [3, 4] 10).current_pos =
        (mkSubmittedTask 5 helloBytes [] false [3, 4] 10).prompt_tokens.length
      ∧ (mkSubmittedTask 5 helloBytes [] false [3, 4] 10).generated_tokens = [])
    ∧ receiveCompletion (fun _ => false) (fun _ => [65]) 7 false sampleTask2 =
        (none, advanceTask (fun _ => [65]) 7 sampleTask2) :=
  ⟨claim_C8.1 (fun _ => some [3, 4]) true (fun _ => true) 5 [] 5
      (mkSubmittedTask 5 helloBytes [] false [3, 4] 10) (by rfl),
   claim_C8.2.2.2.2 (fun _ => false) (fun _ => [65]) 7 sampleTask2 rfl (by decide) rfl⟩

/-- **C4.** If a constraint pattern is supplied and the grammar compiler
rejects its preprocessed form (null sampler handle), submit returns the
failure sentinel `-1` and the task registry receives no new entry — no
matter how tokenization and prompt decode went. -/
theorem claim_C4 :
    ∀ (tok : List Nat → Option (List Int)) (dOk : Bool) (cOk : List Nat → Bool)
      (nid : Int) (params : List Nat),
      parseGrammar params ≠ [] →
      cOk (PatternPreprocessor.preprocess (parseGrammar params)) = false →
      requestCompletion tok dOk cOk nid params = (-1, none) := by
  intro tok dOk cOk nid params hg hcomp
  simp only [requestCompletion]
  cases hnp : parseNPredict params with
  | none => simp [hnp]
  | some n =>
    simp only [hnp]
    cases htok : tok (if parsePrompt params = [] then helloBytes else parsePrompt params) with
    | none => simp [htok]
    | some tks => cases dOk <;> simp [htok, hg, hcomp]

/-- Witness for C4: submitting with the unterminated pattern `[inv` as the
grammar, against a compiler that rejects it. -/
theorem claim_C4_witness :
    requestCompletion (fun _ => some []) true (fun _ => false) 9
        [123, 34, 103, 114, 97, 109, 109, 97, 114, 34, 58, 34, 91, 105, 110, 118, 34, 125] =
      (-1, none) :=
  claim_C4 (fun _ => some []) true (fun _ => false) 9
    [123, 34, 103, 114, 97, 109, 109, 97, 114, 34, 58, 34, 91, 105, 110, 118, 34, 125]
    (by decide) rfl

/-- **C10 (amended).** When the params JSON yields an empty prompt and the
`n_predict` parse does not overflow (`std::stoi` does not throw, i.e.
`parseNPredict` yields a value), submission does not fail because of the
empty prompt: the literal prompt `Hello` is substituted, and the task stored
by an otherwise successful submit carries `Hello` as its prompt and the
tokenization of `Hello` as its prompt tokens. The overflow proviso is forced
by `claim_C10_counterexample`. -/
theorem claim_C10 :
    ∀ (tok : List Nat → Option (List Int)) (cOk : List Nat → Bool) (nid : Int)
      (params : List Nat) (tks : List Int) (n : Nat),
      parsePrompt params = [] →
      parseNPredict params = some n →
      tok helloBytes = some tks →
      (parseGrammar params = [] →
        requestCompletion tok true cOk nid params =
          (nid, some (mkSubmittedTask nid helloBytes (parseGrammar params) false tks n)))
      ∧ (parseGrammar params ≠ [] →
          cOk (PatternPreprocessor.preprocess (parseGrammar params)) = true →
          requestCompletion tok true cOk nid params =
            (nid, some (mkSubmittedTask nid helloBytes (parseGrammar params) true tks
              n))) := by
  intro tok cOk nid params tks n hp hnp htok
  constructor
  · intro hg
    simp [requestCompletion, hnp, hp, htok, hg]
  · intro hg hcomp
    simp [requestCompletion, hnp, hp, htok, hg, hcomp]

/-- Witness for C10: an empty params string (so no parsable prompt field)
still produces a task, with prompt `Hello` and its tokenization. -/
theorem claim_C10_witness :
    requestCompletion (fun _ => some [11, 12]) true (fun _ => true) 3 [] =
      (3, some (mkSubmittedTask 3 helloBytes [] false [11, 12] 10)) :=
  (claim_C10 (fun _ => some [11, 12]) (fun _ => true) 3 [] [11, 12] 10 rfl rfl rfl).1 rfl

/-- Counterexample to C10 as originally stated: at the params
`{"n_predict":9999999999}` the prompt parses empty, yet no task is created
and nothing is tokenized — `std::stoi` throws `std::out_of_range` on the
digit run (it exceeds `INT_MAX`) and `JNI_CATCH_RET` turns that into the
`-1` sentinel before the prompt fallback is even reached. -/
theorem claim_C10_counterexample :
    parsePrompt [123, 34, 110, 95, 112, 114, 101, 100, 105, 99, 116, 34, 58,
        57, 57, 57, 57, 57, 57, 57, 57, 57, 57, 125] = []
    ∧ requestCompletion (fun _ => some [11, 12]) true (fun _ => true) 3
        [123, 34, 110, 95, 112, 114, 101, 100, 105, 99, 116, 34, 58,
          57, 57, 57, 57, 57, 57, 57, 57, 57, 57, 125] = (-1, none) := by
  exact ⟨by decide, by decide⟩

/-- **C9.** Batch decode validation returns a distinct error code per failure
condition: `-2` for a non-positive token count (checked first), `-3`/`-4`/`-5`
for a null token/position/logits array in that order, `-6` for an unallocated
sequence-id slot, `-1` for a null context or unknown batch handle — and the
six codes are pairwise distinct. -/
theorem claim_C9 :
    (∀ (b : LlamaBatch) (dec : Int), b.n_tokens ≤ 0 →
        decodeTokens true (some b) dec = -2)
    ∧ (∀ (b : LlamaBatch) (dec : Int), 0 < b.n_tokens →
        b.token ≠ none → b.pos ≠ none → b.logits = none →
        decodeTokens true (some b) dec = -5)
    ∧ (∀ (b : LlamaBatch) (dec : Int), 0 < b.n_tokens → b.token = none →
        decodeTokens true (some b) dec = -3)
    ∧ (∀ (b : LlamaBatch) (dec : Int), 0 < b.n_tokens → b.token ≠ none →
        b.pos = none → decodeTokens true (some b) dec = -4)
    ∧ (∀ (b : LlamaBatch) (dec : Int) (sids : List (Option (List Int))),
        0 < b.n_tokens → b.token ≠ none → b.pos ≠ none → b.logits ≠ none →
        b.seq_id = some sids → sids.getD 0 none = none →
        decodeTokens true (some b) dec = -6)
    ∧ (∀ (batch : Option LlamaBatch) (dec : Int), decodeTokens false batch dec = -1)
    ∧ (∀ (c : Bool) (dec : Int), decodeTokens c none dec = -1)
    ∧ ([(-1 : Int), -2, -3, -4, -5, -6]).Pairwise (· ≠ ·) := by
  refine ⟨?_, ?_, ?_, ?_, ?_, ?_, ?_, by decide⟩
  · intro b dec h
    simp [decodeTokens, h]
  · intro b dec hn ht hp hl
    simp [decodeTokens, ht, hp, hl, show ¬b.n_tokens ≤ 0 by omega]
  · intro b dec hn ht
    simp [decodeTokens, ht, show ¬b.n_tokens ≤ 0 by omega]
  · intro b dec hn ht hp
    simp [decodeTokens, ht, hp, show ¬b.n_tokens ≤ 0 by omega]
  · intro b dec sids hn ht hp hl hsid hslot
    have hfix : fixSeqAll b = none := by
      obtain ⟨m, hm⟩ : ∃ m, b.n_tokens.toNat = m + 1 := ⟨b.n_tokens.toNat - 1, by omega⟩
      have hslot2 : sids[0]?.getD none = none := by simpa [List.getD] using hslot
      have hstep : fixSeqStep b 0 = none := by
        simp only [fixSeqStep]
        simp [hsid, hslot2]
      simp [fixSeqAll, hm, List.range_succ_eq_map, hstep]
    simp [decodeTokens, ht, hp, hl, hfix, show ¬b.n_tokens ≤ 0 by omega]
  · intro batch dec
    cases batch <;> simp [decodeTokens]
  · intro c dec
    simp [decodeTokens]

/-- Witness for C9: a zero-token batch gives `-2`; a batch with only the
logit-flag array missing gives `-5`. -/
theorem claim_C9_witness :
    decodeTokens true (some ⟨0, none, none, none, none, none⟩) 0 = -2
    ∧ decodeTokens true (some ⟨1, some [1], some [0], some [1], some [some [0]], none⟩) 0 =
        -5 :=
  ⟨claim_C9.1 ⟨0, none, none, none, none, none⟩ 0 (by decide),
   claim_C9.2.1 ⟨1, some [1], some [0], some [1], some [some [0]], none⟩ 0 (by decide)
     (by decide) (by decide) rfl⟩

/-! ## Lemmas about the pattern preprocessor -/

namespace PatternPreprocessor

/-- The fuel argument of the Unicode-escape scanner is irrelevant once it
covers the string length. -/
theorem processUGo_eq : ∀ (f1 f2 : Nat) (l : List Nat),
    l.length ≤ f1 → l.length ≤ f2 → processUGo f1 l = processUGo f2 l := by
  intro f1
  induction f1 with
  | zero =>
    intro f2 l h1 h2
    have hl : l = [] := List.length_eq_zero.mp (Nat.le_antisymm h1 (Nat.zero_le _))
    subst hl
    cases f2 <;> rfl
  | succ f ih =>
    intro f2 l h1 h2
    cases l with
    | nil => cases f2 <;> rfl
    | cons x rest =>
      cases f2 with
      | zero => simp at h2
      | succ f2' =>
        have hr1 : rest.length ≤ f := by simp at h1; omega
        have hr2 : rest.length ≤ f2' := by simp at h2; omega
        simp only [processUGo]
        cases hrep : uRepl (x :: rest) with
        | some rep =>
          rw [ih f2' (rest.drop 5) (by simp; omega) (by simp; omega)]
        | none =>
          rw [ih f2' rest hr1 hr2]

/-- Evaluating the Unicode-escape scanner at any sufficient fuel gives the
pass itself. -/
theorem processUGo_spec (f : Nat) (l : List Nat) (h : l.length ≤ f) :
    processUGo f l = process_unicode_escapes l :=
  processUGo_eq f l.length l h Nat.le.refl

/-- One matched step of the Unicode-escape pass. -/
theorem processU_head_match (x : Nat) (rest rep : List Nat)
    (h : uRepl (x :: rest) = some rep) :
    process_unicode_escapes (x :: rest) = rep ++ process_unicode_escapes (rest.drop 5) := by
  show processUGo (x :: rest).length (x :: rest) = _
  simp only [List.length_cons, processUGo, h]
  rw [processUGo_spec rest.length (rest.drop 5) (by simp)]

/-- One unmatched step of the Unicode-escape pass. -/
theorem processU_head_nomatch (x : Nat) (rest : List Nat)
    (h : uRepl (x :: rest) = none) :
    process_unicode_escapes (x :: rest) = x :: process_unicode_escapes rest := by
  show processUGo (x :: rest).length (x :: rest) = _
  simp only [List.length_cons, processUGo, h]
  rw [processUGo_spec rest.length rest Nat.le.refl]

/-- The fuel argument of the hex-escape scanner is irrelevant once it covers
the string length. -/
theorem processXGo_eq : ∀ (f1 f2 : Nat) (l : List Nat),
    l.length ≤ f1 → l.length ≤ f2 → processXGo f1 l = processXGo f2 l := by
  intro f1
  induction f1 with
  | zero =>
    intro f2 l h1 h2
    have hl : l = [] := List.length_eq_zero.mp (Nat.le_antisymm h1 (Nat.zero_le _))
    subst hl
    cases f2 <;> rfl
  | succ f ih =>
    intro f2 l h1 h2
    cases l with
    | nil => cases f2 <;> rfl
    | cons x rest =>
      cases f2 with
      | zero => simp at h2
      | succ f2' =>
        have hr1 : rest.length ≤ f := by simp at h1; omega
        have hr2 : rest.length ≤ f2' := by simp at h2; omega
        simp only [processXGo]
        cases hrep : xRepl (x :: rest) with
        | some rep =>
          rw [ih f2' (rest.drop 3) (by simp; omega) (by simp; omega)]
        | none =>
          rw [ih f2' rest hr1 hr2]

/-- Evaluating the hex-escape scanner at any sufficient fuel gives the pass
itself. -/
theorem processXGo_spec (f : Nat) (l : List Nat) (h : l.length ≤ f) :
    processXGo f l = process_hex_escapes l :=
  processXGo_eq f l.length l h Nat.le.refl

/-- One matched step of the hex-escape pass. -/
theorem processX_head_match (x : Nat) (rest rep : List Nat)
    (h : xRepl (x :: rest) = some rep) :
    process_hex_escapes (x :: rest) = rep ++ process_hex_escapes (rest.drop 3) := by
  show processXGo (x :: rest).length (x :: rest) = _
  simp only [List.length_cons, processXGo, h]
  rw [processXGo_spec rest.length (rest.drop 3) (by simp)]

/-- One unmatched step of the hex-escape pass. -/
theorem processX_head_nomatch (x : Nat) (rest : List Nat)
    (h : xRepl (x :: rest) = none) :
    process_hex_escapes (x :: rest) = x :: process_hex_escapes rest := by
  show processXGo (x :: rest).length (x :: rest) = _
  simp only [List.length_cons, processXGo, h]
  rw [processXGo_spec rest.length rest Nat.le.refl]

/-- A matched class body ends strictly inside the scanned string. -/
theorem matchClassBody_after (l : List Nat) :
    ∀ b a, matchClassBody l = some (b, a) → a.length < l.length := by
  induction l using matchClassBody.induct with
  | case1 => intro b a h; rw [matchClassBody.eq_def] at h; simp at h
  | case2 rest2 =>
    intro b a h
    rw [matchClassBody.eq_def] at h
    simp at h
    obtain ⟨-, ha⟩ := h
    subst ha
    simp
  | case3 hne => intro b a h; rw [matchClassBody.eq_def] at h; simp at h
  | case4 d rest2 hd hne => intro b a h; rw [matchClassBody.eq_def] at h; simp [hd] at h
  | case5 d rest2 hd b0 a0 hm hne ih =>
    intro b a h
    rw [matchClassBody.eq_def] at h
    simp [hd, hm] at h
    obtain ⟨-, ha⟩ := h
    subst ha
    have := ih b0 a0 hm
    simp
    omega
  | case6 d rest2 hd hm hne ih =>
    intro b a h
    rw [matchClassBody.eq_def] at h
    simp [hd, hm] at h
  | case7 d rest2 h93 h92 b0 a0 hm ih =>
    intro b a h
    rw [matchClassBody.eq_def] at h
    simp [h93, h92, hm] at h
    obtain ⟨-, ha⟩ := h
    subst ha
    have := ih b0 a0 hm
    simp
    omega
  | case8 d rest2 h93 h92 hm ih =>
    intro b a h
    rw [matchClassBody.eq_def] at h
    simp [h93, h92, hm] at h

/-- A matched negated class consumes at least three bytes. -/
theorem ncRepl_after : ∀ (l rep after : List Nat),
    ncRepl l = some (rep, after) → after.length + 3 ≤ l.length := by
  intro l rep after h
  rw [ncRepl.eq_def] at h
  split at h
  · rename_i rest
    cases hm : matchClassBody rest with
    | none => rw [hm] at h; simp at h
    | some pr =>
      obtain ⟨body, aft⟩ := pr
      rw [hm] at h
      have h2 : (match parseNegatedBody body with
          | some ex => some (buildPositiveClass ex, aft)
          | none => none) = some (rep, after) := h
      cases hpb : parseNegatedBody body with
      | none => rw [hpb] at h2; simp at h2
      | some ex =>
        rw [hpb] at h2
        simp at h2
        obtain ⟨-, ha⟩ := h2
        subst ha
        have := matchClassBody_after rest body aft hm
        simp
        omega
  · simp at h

/-- The fuel argument of the negated-class scanner is irrelevant once it
covers the string length. -/
theorem processNCGo_eq : ∀ (f1 f2 : Nat) (l : List Nat),
    l.length ≤ f1 → l.length ≤ f2 → processNCGo f1 l = processNCGo f2 l := by
  intro f1
  induction f1 with
  | zero =>
    intro f2 l h1 h2
    have hl : l = [] := List.length_eq_zero.mp (Nat.le_antisymm h1 (Nat.zero_le _))
    subst hl
    cases f2 <;> rfl
  | succ f ih =>
    intro f2 l h1 h2
    cases l with
    | nil => cases f2 <;> rfl
    | cons x rest =>
      cases f2 with
      | zero => simp at h2
      | succ f2' =>
        have hr1 : rest.length ≤ f := by simp at h1; omega
        have hr2 : rest.length ≤ f2' := by simp at h2; omega
        cases hrep : ncRepl (x :: rest) with
        | some pr =>
          obtain ⟨rep, after⟩ := pr
          have hlen := ncRepl_after (x :: rest) rep after hrep
          simp at hlen
          simp only [processNCGo, hrep]
          rw [ih f2' after (by omega) (by omega)]
        | none =>
          simp only [processNCGo, hrep]
          rw [ih f2' rest hr1 hr2]

/-- Evaluating the negated-class scanner at any sufficient fuel gives the
pass itself. -/
theorem processNCGo_spec (f : Nat) (l : List Nat) (h : l.length ≤ f) :
    processNCGo f l = process_negated_char_classes l :=
  processNCGo_eq f l.length l h Nat.le.refl

/-- One matched step of the negated-class pass. -/
theorem processNC_head_match (x : Nat) (rest rep after : List Nat)
    (h : ncRepl (x :: rest) = some (rep, after)) :
    process_negated_char_classes (x :: rest) =
      rep ++ process_negated_char_classes after := by
  have hlen := ncRepl_after (x :: rest) rep after h
  simp at hlen
  show processNCGo (x :: rest).length (x :: rest) = _
  simp only [List.length_cons, processNCGo, h]
  rw [processNCGo_spec rest.length after (by omega)]

/-- One unmatched step of the negated-class pass. -/
theorem processNC_head_nomatch (x : Nat) (rest : List Nat)
    (h : ncRepl (x :: rest) = none) :
    process_negated_char_classes (x :: rest) = x :: process_negated_char_classes rest := by
  show processNCGo (x :: rest).length (x :: rest) = _
  simp only [List.length_cons, processNCGo, h]
  rw [processNCGo_spec rest.length rest Nat.le.refl]

/-- Without a `\uXXXX` match anywhere, the Unicode-escape pass is the
identity. -/
theorem processU_id : ∀ l : List Nat,
    hasUnicodeEscape l = false → process_unicode_escapes l = l := by
  intro l
  induction l with
  | nil => intro _; rfl
  | cons x rest ih =>
    intro h
    have h2 : (uRepl (x :: rest)).isSome = false ∧ hasUnicodeEscape rest = false := by
      simpa [hasUnicodeEscape] using h
    have hrep : uRepl (x :: rest) = none := by
      cases hr : uRepl (x :: rest)
      · rfl
      · rw [hr] at h2; simp at h2
    rw [processU_head_nomatch x rest hrep, ih h2.2]

/-- Without a `\xXX` match anywhere, the hex-escape pass is the identity. -/
theorem processX_id : ∀ l : List Nat,
    hasHexEscape l = false → process_hex_escapes l = l := by
  intro l
  induction l with
  | nil => intro _; rfl
  | cons x rest ih =>
    intro h
    have h2 : (xRepl (x :: rest)).isSome = false ∧ hasHexEscape rest = false := by
      simpa [hasHexEscape] using h
    have hrep : xRepl (x :: rest) = none := by
      cases hr : xRepl (x :: rest)
      · rfl
      · rw [hr] at h2; simp at h2
    rw [processX_head_nomatch x rest hrep, ih h2.2]

/-- Where the negated-class regex does not match at all, the scanner has no
replacement to offer (whether or not a rewrite loop would have terminated is
then moot). -/
theorem ncRepl_none_of_not_matches (l : List Nat) (h : ncMatches l = false) :
    ncRepl l = none := by
  rw [ncMatches.eq_def] at h
  rw [ncRepl.eq_def]
  split
  · rename_i rest
    cases hm : matchClassBody rest with
    | none => simp [hm]
    | some pr => simp [hm] at h
  · rfl

/-- Without a `[^...]` match anywhere, the negated-class pass is the
identity. -/
theorem processNC_id : ∀ l : List Nat,
    hasNegatedClass l = false → process_negated_char_classes l = l := by
  intro l
  induction l with
  | nil => intro _; rfl
  | cons x rest ih =>
    intro h
    have h2 : ncMatches (x :: rest) = false ∧ hasNegatedClass rest = false := by
      simpa [hasNegatedClass] using h
    have hrep : ncRepl (x :: rest) = none := ncRepl_none_of_not_matches _ h2.1
    rw [processNC_head_nomatch x rest hrep, ih h2.2]

/-- The lowercase hex digit bytes emitted for values `< 16` are hex digits
and decode back to the same value. -/
theorem hexDigitChar_spec : ∀ d : Nat, d < 16 →
    isHexDigitB (hexDigitChar d) = true ∧ hexVal (hexDigitChar d) = d := by
  intro d hd
  interval_cases d <;> exact ⟨by decide, by decide⟩

/-- Reparsing the emission of one kept character recovers exactly that
character as a class member. -/
theorem classItemsBack_emit (c : Nat) (hc : c < 255) (rest : List Nat) :
    classItemsBack (emitChar c ++ rest) =
      (classItemsBack rest).map (fun ms => c :: ms) := by
  by_cases hs : c = 92 ∨ c = 93 ∨ c = 45 ∨ c = 94
  · have he : emitChar c = [92, c] := by simp [emitChar, hs]
    rw [he]
    rcases hs with h | h | h | h <;> subst h <;>
      (rw [classItemsBack.eq_def]; simp)
  · by_cases hctrl : c < 32 ∨ c = 127
    · have he : emitChar c =
          [92, 120, hexDigitChar (c / 16), hexDigitChar (c % 16)] := by
        simp [emitChar, hs, hctrl]
      have h1 := hexDigitChar_spec (c / 16) (by omega)
      have h2 := hexDigitChar_spec (c % 16) (by omega)
      rw [he]
      simp only [List.cons_append, List.nil_append]
      rw [classItemsBack.eq_def]
      simp only [h1.1, h2.1, Bool.and_self, if_true, h1.2, h2.2]
      have hcc : c / 16 * 16 + c % 16 = c := by omega
      simp [hcc]
    · have he : emitChar c = [c] := by simp [emitChar, hs, hctrl]
      have hc92 : ¬c = 92 := fun h => hs (Or.inl h)
      rw [he]
      simp only [List.cons_append, List.nil_append]
      rw [classItemsBack.eq_def]
      simp [hc92]

/-- Reparsing the emission of a list of kept characters recovers exactly that
list of class members. -/
theorem classItemsBack_emitAll : ∀ L : List Nat, (∀ c ∈ L, c < 255) →
    classItemsBack (emitAll L) = some L := by
  intro L
  induction L with
  | nil =>
    intro _
    rw [show emitAll [] = ([] : List Nat) from rfl, classItemsBack.eq_def]
  | cons c t ih =>
    intro h
    have hc : c < 255 := h c (by simp)
    have ht : ∀ x ∈ t, x < 255 := fun x hx => h x (by simp [hx])
    simp only [emitAll]
    rw [classItemsBack_emit c hc (emitAll t), ih ht]
    rfl

/-- **C5 (amended).** The negated-class rewrite, for every well-formed
`[^...]` match whose excluded-set loop terminates (`parseNegatedBody` yields
a set; the proviso, forced by `claim_C5_counterexample`, excludes exactly
the bodies containing a range ending at byte 0xFF, on which the source's
`unsigned char` loop never returns): the match is replaced in the scan by the
rewritten positive class; reparsing the emitted positive class's body
recovers exactly the kept characters — the bytes `0..254` outside the
excluded set, each once; in particular every printable ASCII character
outside the negated set is a member exactly once and no member of the
negated set appears; and the emission re-escapes `\ ] - ^` and hex-escapes
control characters. -/
theorem claim_C5 :
    (∀ (rest body after ex : List Nat),
        matchClassBody rest = some (body, after) →
        parseNegatedBody body = some ex →
        process_negated_char_classes (91 :: 94 :: rest) =
          buildPositiveClass ex ++ process_negated_char_classes after)
    ∧ (∀ (body ex : List Nat), parseNegatedBody body = some ex →
        classItemsBack (positiveBody ex) =
          some ((List.range 255).filter (fun c => decide (c ∉ ex))))
    ∧ (∀ (body ex : List Nat) (c : Nat), parseNegatedBody body = some ex →
        32 ≤ c → c ≤ 126 → c ∉ ex →
        ((List.range 255).filter (fun c => decide (c ∉ ex))).count c = 1)
    ∧ (∀ (body ex : List Nat) (c : Nat), parseNegatedBody body = some ex →
        c ∈ ex →
        ((List.range 255).filter (fun c => decide (c ∉ ex))).count c = 0)
    ∧ (∀ c : Nat, c = 92 ∨ c = 93 ∨ c = 45 ∨ c = 94 → emitChar c = [92, c])
    ∧ (∀ c : Nat, c < 32 ∨ c = 127 →
        emitChar c = [92, 120, hexDigitChar (c / 16), hexDigitChar (c % 16)]) := by
  refine ⟨?_, ?_, ?_, ?_, ?_, ?_⟩
  · intro rest body after ex h hpb
    have hrep : ncRepl (91 :: 94 :: rest) = some (buildPositiveClass ex, after) := by
      rw [ncRepl.eq_def]
      simp [h, hpb]
    exact processNC_head_match 91 (94 :: rest) _ after hrep
  · intro body ex _
    exact classItemsBack_emitAll _ (by
      intro c hcm
      simp only [List.mem_filter, List.mem_range] at hcm
      exact hcm.1)
  · intro body ex c _ h32 h126 hnot
    have hnd : ((List.range 255).filter (fun c => decide (c ∉ ex))).Nodup :=
      (List.nodup_range 255).filter _
    have hmem : c ∈ (List.range 255).filter (fun c => decide (c ∉ ex)) :=
      List.mem_filter.mpr ⟨List.mem_range.mpr (by omega), by simpa using hnot⟩
    exact List.count_eq_one_of_mem hnd hmem
  · intro body ex c _ hc
    refine List.count_eq_zero.mpr ?_
    intro hmem
    simp only [List.mem_filter, decide_eq_true_eq] at hmem
    exact hmem.2 hc
  · intro c h
    simp [emitChar, h]
  · intro c h
    have hns : ¬(c = 92 ∨ c = 93 ∨ c = 45 ∨ c = 94) := by omega
    simp [emitChar, hns, h]

/-- Witness for C5: the class `[^abc]` followed by a stray byte, and the
membership count of `d` in the complement of `{a,b,c}`. -/
theorem claim_C5_witness :
    process_negated_char_classes [91, 94, 97, 98, 99, 93, 120] =
      buildPositiveClass [97, 98, 99] ++ process_negated_char_classes [120]
    ∧ ((List.range 255).filter
        (fun c => decide (c ∉ ([97, 98, 99] : List Nat)))).count 100 = 1 :=
  ⟨claim_C5.1 [97, 98, 99, 93, 120] [97, 98, 99] [120] [97, 98, 99]
      (by decide) (by decide),
   claim_C5.2.2.1 [97, 98, 99] [97, 98, 99] 100 (by decide) (by decide) (by decide)
     (by decide)⟩

/-- Counterexample to C5 as originally stated: `[^\xf0-\xff]` — after the
hex pass, the class body is the bytes `0xF0 - 0xFF` — is a well-formed
negated class (the regex matches it), yet the source emits no positive class
for it: its excluded-set loop `for (unsigned char cc = 0xF0; cc <= 0xFF;
++cc)` never terminates, modelled by `parseNegatedBody` returning `none`. -/
theorem claim_C5_counterexample :
    matchClassBody [240, 45, 255, 93] = some ([240, 45, 255], [])
    ∧ parseNegatedBody [240, 45, 255] = none := by
  exact ⟨by decide, by decide⟩

/-- **C6.** Escape resolution: a `\uXXXX` match (exactly four hex digits) is
replaced by the UTF-8 bytes of its codepoint, except U+2028/U+2029 which are
deleted; a `\xXX` match (exactly two hex digits) is replaced by the literal
byte, except 0x0B/0x0C/0x85 which are deleted; at any non-matching position
the byte is copied untouched; and `codepoint_to_utf8` really is the UTF-8
encoding (an independent decoder recovers the codepoint). -/
theorem claim_C6 :
    (∀ (a b c d : Nat) (rest : List Nat),
        isHexDigitB a = true → isHexDigitB b = true → isHexDigitB c = true →
        isHexDigitB d = true →
        process_unicode_escapes (92 :: 117 :: a :: b :: c :: d :: rest) =
          (if ((hexVal a * 16 + hexVal b) * 16 + hexVal c) * 16 + hexVal d = 0x2028
              ∨ ((hexVal a * 16 + hexVal b) * 16 + hexVal c) * 16 + hexVal d = 0x2029
            then []
            else codepoint_to_utf8
              (((hexVal a * 16 + hexVal b) * 16 + hexVal c) * 16 + hexVal d)) ++
            process_unicode_escapes rest)
    ∧ (∀ (x : Nat) (rest : List Nat), uRepl (x :: rest) = none →
        process_unicode_escapes (x :: rest) = x :: process_unicode_escapes rest)
    ∧ (∀ (a b : Nat) (rest : List Nat),
        isHexDigitB a = true → isHexDigitB b = true →
        process_hex_escapes (92 :: 120 :: a :: b :: rest) =
          (if hexVal a * 16 + hexVal b = 0x0B ∨ hexVal a * 16 + hexVal b = 0x0C
              ∨ hexVal a * 16 + hexVal b = 0x85
            then [] else [hexVal a * 16 + hexVal b]) ++ process_hex_escapes rest)
    ∧ (∀ (x : Nat) (rest : List Nat), xRepl (x :: rest) = none →
        process_hex_escapes (x :: rest) = x :: process_hex_escapes rest)
    ∧ (∀ cp : Nat, cp ≤ 0x10FFFF →
        utf8DecodeOne (codepoint_to_utf8 cp) = some cp) := by
  refine ⟨?_, processU_head_nomatch, ?_, processX_head_nomatch, ?_⟩
  · intro a b c d rest ha hb hc hd
    have hrep : uRepl (92 :: 117 :: a :: b :: c :: d :: rest) =
        some (if ((hexVal a * 16 + hexVal b) * 16 + hexVal c) * 16 + hexVal d = 0x2028
              ∨ ((hexVal a * 16 + hexVal b) * 16 + hexVal c) * 16 + hexVal d = 0x2029
            then []
            else codepoint_to_utf8
              (((hexVal a * 16 + hexVal b) * 16 + hexVal c) * 16 + hexVal d)) := by
      rw [uRepl.eq_def]
      simp [ha, hb, hc, hd]
    have h5 := processU_head_match 92 (117 :: a :: b :: c :: d :: rest) _ hrep
    simpa using h5
  · intro a b rest ha hb
    have hrep : xRepl (92 :: 120 :: a :: b :: rest) =
        some (if hexVal a * 16 + hexVal b = 0x0B ∨ hexVal a * 16 + hexVal b = 0x0C
              ∨ hexVal a * 16 + hexVal b = 0x85
            then [] else [hexVal a * 16 + hexVal b]) := by
      rw [xRepl.eq_def]
      simp [ha, hb]
    have h5 := processX_head_match 92 (120 :: a :: b :: rest) _ hrep
    simpa using h5
  · intro cp hcp
    simp only [codepoint_to_utf8]
    split_ifs with h1 h2 h3
    · simp only [utf8DecodeOne]
      rw [if_pos (by omega)]
    · simp only [utf8DecodeOne]
      rw [if_pos (by omega)]
      simp only [Option.some.injEq]
      omega
    · simp only [utf8DecodeOne]
      rw [if_pos (by omega)]
      simp only [Option.some.injEq]
      omega
    · simp only [utf8DecodeOne]
      rw [if_pos (by omega)]
      simp only [Option.some.injEq]
      omega

/-- Witness for C6: `A` becomes the byte `A`, and the encoder/decoder
round-trip at U+20AC. -/
theorem claim_C6_witness :
    process_unicode_escapes [92, 117, 48, 48, 52, 49] = [65]
    ∧ utf8DecodeOne (codepoint_to_utf8 8364) = some 8364 :=
  ⟨by
    have h := claim_C6.1 48 48 52 49 [] (by decide) (by decide) (by decide) (by decide)
    rw [h]
    decide,
   claim_C6.2.2.2.2 8364 (by decide)⟩

/-- **C7.** A pattern with no well-formed `\uXXXX` escape, no well-formed
`\xXX` escape, and no well-formed `[^...]` class (in particular one whose
only bracket expression never closes) passes through the preprocessor
byte-for-byte unchanged. -/
theorem claim_C7 :
    ∀ pattern : List Nat,
      hasUnicodeEscape pattern = false →
      hasHexEscape pattern = false →
      hasNegatedClass pattern = false →
      preprocess pattern = pattern := by
  intro pattern hu hx hn
  unfold preprocess
  rw [processU_id pattern hu, processX_id pattern hx, processNC_id pattern hn]

/-- Witness for C7: the unterminated negated bracket expression `[^abc` is
returned unchanged. -/
theorem claim_C7_witness :
    preprocess [91, 94, 97, 98, 99] = [91, 94, 97, 98, 99] :=
  claim_C7 [91, 94, 97, 98, 99] (by decide) (by decide) (by decide)

end PatternPreprocessor

end JLlama
